import Mathlib

/-!
Verification of the Fumifier expression-compilation cache and dynamic
resolution engine.  JavaScript sources under `src/` are embedded shallowly:
untyped JS values become the `JVal` inductive, async functions that may throw
become `Except`/`Option`-returning Lean functions, and the `Map`-based LRU
cache becomes an ordered association list (JS `Map` preserves insertion
order).  Components of the engine whose implementation files are not part of
the provided sources (the identity builder, the inflight coordinator, the
mapping resolver, the policy engine) are modelled from the specification, as
marked in their doc comments.
-/

namespace Fumifier

/-- A model of untyped JavaScript values.  `undefined` is `undefined`, distinct
from `null`; objects and arrays carry their contents; numbers are modelled as
integers (no claim under study depends on non-integral numerics). -/
inductive JVal where
  | undefined
  | null
  | bool (b : Bool)
  | num (n : Int)
  | str (s : String)
  | arr (items : List JVal)
  | obj (fields : List (String × JVal))

/-- JavaScript truthiness: `undefined`, `null`, `false`, `0`, and `""` are
falsy; every object and array (even empty) is truthy. -/
def JVal.truthy : JVal → Bool
  | .undefined => false
  | .null => false
  | .bool b => b
  | .num n => n != 0
  | .str s => s ≠ ""
  | .arr _ => true
  | .obj _ => true

/-- JavaScript object-typeof test (whether typeof v is the object type):
true for `null`, arrays and plain objects; false for `undefined`, booleans,
numbers and strings. -/
def JVal.isObjectType : JVal → Bool
  | .null => true
  | .arr _ => true
  | .obj _ => true
  | _ => false

/-- Property access `v.f` on a JS value: a present field of an object is
returned, anything else yields `undefined`. -/
def JVal.getField (v : JVal) (f : String) : JVal :=
  match v with
  | .obj fields =>
    match fields.find? (fun p => p.1 == f) with
    | some p => p.2
    | none => .undefined
  | _ => .undefined

/-- JavaScript string-typeof test (whether typeof v is the string type). -/
def JVal.isStringType : JVal → Bool
  | .str _ => true
  | _ => false

/-- Strict equality `v === s` of a JS value with a string literal. -/
def JVal.strictEqStr (v : JVal) (s : String) : Bool :=
  match v with
  | .str t => t == s
  | _ => false

/-- The short-circuit `a || b` of JavaScript: returns `a` when truthy,
otherwise `b`. -/
def JVal.jsOr (a b : JVal) : JVal :=
  if a.truthy then a else b

/-- The short-circuit `a && b` of JavaScript: returns `a` when falsy,
otherwise `b`. -/
def JVal.jsAnd (a b : JVal) : JVal :=
  if a.truthy then b else a

/-- The JS array map method on a JS value: defined only on arrays; calling
it on a non-array throws a TypeError, modelled as `none`. -/
def JVal.jsArrayMap (f : JVal → JVal) : JVal → Option JVal
  | .arr items => some (.arr (items.map f))
  | _ => none

/-- The JS array filter method applied with the Boolean predicate: defined
only on arrays; calling it on a non-array throws a TypeError, modelled as
`none`. -/
def JVal.jsFilterTruthy : JVal → Option JVal
  | .arr items => some (.arr (items.filter JVal.truthy))
  | _ => none

/-! ### Terminology wrappers (`src/utils/terminologyWrappers.js`) -/

/-- Embeds `toCodingLike` of `src/utils/terminologyWrappers.js`: a falsy or
non-object target yields `undefined`; a target without truthy `system` and
`code` yields `undefined`; otherwise a coding object is built carrying
`system` and `code`, plus `display` and `version` when they are nonempty
strings. -/
def toCodingLike (target : JVal) : JVal :=
  if !target.truthy || !target.isObjectType then .undefined
  else
    let system := target.getField "system"
    let code := target.getField "code"
    if !system.truthy || !code.truthy then .undefined
    else
      let base := [("system", system), ("code", code)]
      let display := target.getField "display"
      let withDisplay :=
        if display.isStringType && display.truthy then base ++ [("display", display)] else base
      let version := target.getField "version"
      let withVersion :=
        if version.isStringType && version.truthy then withDisplay ++ [("version", version)]
        else withDisplay
      .obj withVersion

/-- Embeds `maybeCollapseArray` of `src/utils/terminologyWrappers.js`: a
non-array or empty array yields `undefined`; a singleton yields its element;
longer arrays are returned unchanged. -/
def maybeCollapseArray (items : JVal) : JVal :=
  match items with
  | .arr [] => .undefined
  | .arr [x] => x
  | .arr xs => .arr xs
  | _ => .undefined

/-- Embeds the body of `translateCode` in `src/utils/terminologyWrappers.js`
after the runtime has produced `result` from `translateConceptMap`.  `none`
models a thrown `TypeError` (mapping over a truthy non-array `targets`). -/
def translateCodeFromResult (result : JVal) : Option JVal :=
  if !result.truthy || !(result.getField "status").strictEqStr "mapped" then some .undefined
  else do
    let targets := (result.getField "targets").jsOr (.arr [])
    let mapped ← targets.jsArrayMap (fun t => t.jsAnd (t.getField "code"))
    let codes ← mapped.jsFilterTruthy
    return maybeCollapseArray codes

/-- Embeds the body of `translateCoding` in
`src/utils/terminologyWrappers.js` after the runtime has produced `result`
from `translateConceptMap`. -/
def translateCodingFromResult (result : JVal) : Option JVal :=
  if !result.truthy || !(result.getField "status").strictEqStr "mapped" then some .undefined
  else do
    let targets := (result.getField "targets").jsOr (.arr [])
    let mapped ← targets.jsArrayMap toCodingLike
    let codings ← mapped.jsFilterTruthy
    return maybeCollapseArray codings

/-! ### Expression identity (modelled; consumed by `src/utils/browserCache.js`) -/

/-- The language version constant of the engine, the first component of
every expression identity. -/
def languageVersion : String := "1.0"

/-- The structural cache key of a compiled expression.  Field names follow
the accesses made by `BrowserCache._generateKey` in
`src/utils/browserCache.js` (`identity.version`, `identity.source`,
`identity.recover`, `identity.rootPackages`). -/
structure ExpressionIdentity where
  version : String
  source : String
  recover : Bool
  rootPackages : Option (List String)
deriving DecidableEq, Repr

/-- Modelled from the spec: `createExpressionIdentity` is declared in
`src/utils/cacheUtils.js`, which is not among the provided sources (only its
callers and tests are).  Per §3 and §4.1 it is a pure function packaging the
source text, the recover flag (always present, defaulting to `false` when the
argument is omitted or `undefined`, modelled as `none`) and the schema
context into an immutable identity compared structurally. -/
def createExpressionIdentity (source : String) (recover : Option Bool)
    (rootPackages : Option (List String)) : ExpressionIdentity :=
  { version := languageVersion
    source := source
    recover := recover.getD false
    rootPackages := rootPackages }

/-! ### Bounded LRU cache (`src/utils/browserCache.js`) -/

/-- A naive JSON rendering of a string list, standing in for
`JSON.stringify(identity.rootPackages)` in `_generateKey` (escaping of
special characters inside package names is elided; no claim depends on
it). -/
def jsonStringifyStrings (l : List String) : String :=
  "[" ++ String.intercalate "," (l.map (fun s => "\x22" ++ s ++ "\x22")) ++ "]"

/-- Embeds `BrowserCache._generateKey`: the deterministic string key joining
version, source, the recover marker and the stringified package context with
`|`. -/
def generateKey (identity : ExpressionIdentity) : String :=
  String.intercalate "|"
    [identity.version,
     identity.source,
     if identity.recover then "recover" else "normal",
     match identity.rootPackages with
     | some pkgs => jsonStringifyStrings pkgs
     | none => ""]

/-- Embeds the state of the `BrowserCache` class of
`src/utils/browserCache.js`: a capacity bound and the backing JS `Map`,
modelled as an association list in insertion order (JS `Map` iteration
order), head = oldest. -/
structure BrowserCache (V : Type) where
  maxEntries : Nat
  entries : List (String × V)
deriving Repr

/-- Embeds `BrowserCache.get` at the key level (after `_generateKey`): a hit
deletes the entry and re-inserts it at the most-recently-used end; a miss
leaves the map untouched and returns `undefined` (here `none`). -/
def BrowserCache.getKey {V : Type} (c : BrowserCache V) (key : String) :
    Option V × BrowserCache V :=
  match c.entries.find? (fun p => p.1 == key) with
  | some p =>
    (some p.2,
     { c with entries := c.entries.filter (fun q => q.1 ≠ key) ++ [(key, p.2)] })
  | none => (none, c)

/-- Embeds `BrowserCache.set` at the key level: when at capacity and the key
is new, the first (least-recently-used) entry is deleted; an existing entry
for the key is deleted to refresh insertion order; the new pair is appended
at the most-recently-used end. -/
def BrowserCache.setKey {V : Type} (c : BrowserCache V) (key : String) (v : V) :
    BrowserCache V :=
  let hasKey := (c.entries.find? (fun p => p.1 == key)).isSome
  let afterEvict :=
    if c.maxEntries ≤ c.entries.length ∧ hasKey = false then c.entries.drop 1
    else c.entries
  let afterDelete :=
    if hasKey then afterEvict.filter (fun q => q.1 ≠ key) else afterEvict
  { c with entries := afterDelete ++ [(key, v)] }

/-- Embeds `BrowserCache.get` on an identity, as in the source: key
generation then the LRU-refreshing lookup. -/
def BrowserCache.get {V : Type} (c : BrowserCache V) (identity : ExpressionIdentity) :
    Option V × BrowserCache V :=
  c.getKey (generateKey identity)

/-- Embeds `BrowserCache.set` on an identity, as in the source. -/
def BrowserCache.set {V : Type} (c : BrowserCache V) (identity : ExpressionIdentity)
    (v : V) : BrowserCache V :=
  c.setKey (generateKey identity) v

/-- The `size` component of `BrowserCache.getStats`: the number of stored
entries. -/
def BrowserCache.size {V : Type} (c : BrowserCache V) : Nat :=
  c.entries.length

/-- A freshly constructed cache (`new BrowserCache(maxEntries)`): empty
backing map. -/
def BrowserCache.fresh (V : Type) (maxEntries : Nat) : BrowserCache V :=
  { maxEntries := maxEntries, entries := [] }

/-- One external operation against a `BrowserCache`, at the key level. -/
inductive CacheOp (V : Type) where
  | get (key : String)
  | set (key : String) (v : V)

/-- Runs a sequence of cache operations, threading the cache state. -/
def BrowserCache.runOps {V : Type} (c : BrowserCache V) :
    List (CacheOp V) → BrowserCache V
  | [] => c
  | .get k :: rest => ((c.getKey k).2).runOps rest
  | .set k v :: rest => (c.setKey k v).runOps rest

/-! ### Browser compile pipeline (`src/browser.js`) -/

/-- A parsed AST as handled by `browserFumifier`: an opaque payload plus the
`errors` property, `none` when the parser attached no `errors` array
(`!ast.errors` in the source). -/
structure Ast where
  payload : JVal
  errors : Option (List JVal)

/-- Embeds the `if (!ast.errors) ast.errors = []` normalization of
`src/browser.js` (applied both to freshly parsed and to pre-parsed ASTs). -/
def ensureErrors (a : Ast) : Ast :=
  { a with errors := some (a.errors.getD []) }

/-- A cache-shaped object as consumed by `browserFumifier`: stateful `get`
and `set` whose results may be a thrown exception (`Except.error`). -/
structure AstCacheModel (σ : Type) where
  get : σ → ExpressionIdentity → Except Unit (Option Ast) × σ
  set : σ → ExpressionIdentity → Ast → Except Unit Unit × σ

/-- Embeds the string branch of `browserFumifier` in `src/browser.js`
(lines 58–86): build the identity, try `astCache.get` (a thrown exception is
caught and leaves `ast = null`), on a miss parse, normalize `errors`, and
try `astCache.set` (a thrown exception is caught and ignored).  Returns the
AST handed to the main fumifier together with the final cache state. -/
def browserFumifierCompile {σ : Type} (parse : String → Option Bool → Ast)
    (astCache : AstCacheModel σ) (s : σ) (expr : String) (recover : Option Bool) :
    Ast × σ :=
  let identity := createExpressionIdentity expr recover none
  let (got, s1) := astCache.get s identity
  let cached : Option Ast :=
    match got with
    | .ok v => v
    | .error _ => none
  match cached with
  | some a => (a, s1)
  | none =>
    let a := ensureErrors (parse expr recover)
    let (_, s2) := astCache.set s1 identity a
    (a, s2)

/-- The faulty cache of the `should handle cache errors gracefully` test:
`get` and `set` always throw. -/
def faultyAstCache : AstCacheModel Unit :=
  { get := fun s _ => (.error (), s)
    set := fun s _ _ => (.error (), s) }

/-- The default working cache of `src/browser.js`
(`getDefaultBrowserCache()`), wrapped behind the async cache contract: its
`get` and `set` never throw. -/
def browserCacheAstModel : AstCacheModel (BrowserCache Ast) :=
  { get := fun c identity =>
      let (v, c1) := c.get identity
      (.ok v, c1)
    set := fun c identity a => (.ok (), c.set identity a) }

/-! ### Inflight coordinator (modelled from the spec, §4.4) -/

/-- Modelled from the spec: the state of the Inflight Coordinator
(`CacheInterface` of `src/utils/cacheUtils.js`, not among the provided
sources).  `cache` is the identity-keyed store, `inflight` the registry of
in-progress compilations with their waiting request ids, `parseCount` the
number of underlying parses started, and `results` the values delivered to
requesters. -/
structure CoordState where
  cache : List (String × Nat)
  inflight : List (String × List Nat)
  parseCount : Nat
  results : List (Nat × Nat)
deriving DecidableEq, Repr

/-- Lookup in an association list keyed by strings. -/
def alookup {α : Type} (l : List (String × α)) (k : String) : Option α :=
  (l.find? (fun p => p.1 == k)).map (fun p => p.2)

/-- Adds a waiter to the inflight record for `k`. -/
def addWaiter (l : List (String × List Nat)) (k : String) (r : Nat) :
    List (String × List Nat) :=
  l.map (fun p => if p.1 = k then (p.1, r :: p.2) else p)

/-- Removes the inflight record for `k`. -/
def removeRecord (l : List (String × List Nat)) (k : String) :
    List (String × List Nat) :=
  l.filter (fun p => p.1 ≠ k)

/-- One observable event at the coordinator: a compile request arriving
(request id plus expression identity key) or the in-progress compilation of
an identity settling. -/
inductive CoordEvent where
  | arrive (rid : Nat) (ident : String)
  | settle (ident : String)
deriving DecidableEq, Repr

/-- The identity an event concerns. -/
def CoordEvent.ident : CoordEvent → String
  | .arrive _ i => i
  | .settle i => i

/-- Modelled from the spec: one step of the Inflight Coordinator protocol of
§4.4.  An arriving request first consults the cache (a hit short-circuits
without touching the inflight registry); otherwise it attaches to an
existing inflight record or creates one, starting the one underlying parse.
A settling compilation stores the shared result (`parse i`, the same value
for every waiter) into the cache, resolves every waiter with it and removes
the record regardless of waiter count. -/
def coordStep (parse : String → Nat) (s : CoordState) : CoordEvent → CoordState
  | .arrive rid i =>
    match alookup s.cache i with
    | some v => { s with results := (rid, v) :: s.results }
    | none =>
      match alookup s.inflight i with
      | some _ => { s with inflight := addWaiter s.inflight i rid }
      | none =>
        { s with inflight := (i, [rid]) :: s.inflight
                 parseCount := s.parseCount + 1 }
  | .settle i =>
    match alookup s.inflight i with
    | some ws =>
      { s with cache := (i, parse i) :: s.cache
               inflight := removeRecord s.inflight i
               results := ws.map (fun r => (r, parse i)) ++ s.results }
    | none => s

/-- The empty initial coordinator state. -/
def coordInit : CoordState :=
  { cache := [], inflight := [], parseCount := 0, results := [] }

/-- Runs a sequence of coordinator events. -/
def runCoord (parse : String → Nat) (s : CoordState) :
    List CoordEvent → CoordState
  | [] => s
  | e :: rest => runCoord parse (coordStep parse s e) rest

/-- The request ids of the arrival events for identity `i` in a trace. -/
def arrivalRids (evs : List CoordEvent) (i : String) : List Nat :=
  evs.filterMap (fun e =>
    match e with
    | .arrive r j => if j = i then some r else none
    | .settle _ => none)

/-- The `activeInflightRequests` statistic of `getInflightStats`: the number
of identities currently mid-compile. -/
def activeInflightRequests (s : CoordState) : Nat :=
  s.inflight.length

/-! ### Mapping repository resolver (modelled from the spec, §4.5, §9) -/

/-- Modelled from the spec: the dynamic-name resolution of §4.5, implemented
in `src/fumifier.js` which is not among the provided sources.  Per §9 it is
an ordered chain of lookup functions — local variables of the lexical scope,
the explicit call-site binding object, the mapping repository, the built-in
registry — short-circuiting on the first hit. -/
def resolveName {α : Type} (localVars callSiteBindings repoMappings builtins :
    String → Option α) (name : String) : Option α :=
  match localVars name with
  | some f => some f
  | none =>
    match callSiteBindings name with
    | some f => some f
    | none =>
      match repoMappings name with
      | some f => some f
      | none => builtins name

/-! ### Policy engine and verbose reports (modelled from the spec, §4.6, §4.7) -/

/-- A raised condition: a stable error code plus a severity, as classified
by the policy engine. -/
structure Condition where
  code : String
  severity : Nat
deriving DecidableEq, Repr

/-- Modelled from the spec: the HTTP-like status mapped from the worst
condition of a failed verbose evaluation (§4.7); always a non-200 failure
status. -/
def conditionStatus (c : Condition) : Nat :=
  if 4 ≤ c.severity then 500 else 422

/-- The verbose report of §4.7: success flag, HTTP-like status, optional
result, the diagnostics accumulated by the attempt, and the per-call
execution id. -/
structure VerboseReport (α : Type) where
  ok : Bool
  status : Nat
  result : Option α
  diagnostics : List Condition
  executionId : Nat
deriving DecidableEq, Repr

/-- Modelled from the spec: a plain `evaluate` call over one evaluation
attempt, abstracted as the ordered list of conditions the attempt raises
plus the value it produces when nothing fatal occurs (§4.6).  The first
condition at or above the configured throw level propagates as a failure;
below-threshold conditions are suppressed. -/
def evaluateRun {α : Type} (throwLevel : Nat) (conds : List Condition)
    (v : α) : Except Condition α :=
  match conds.find? (fun c => throwLevel ≤ c.severity) with
  | some c => .error c
  | none => .ok v

/-- Modelled from the spec: `evaluateVerbose` over the same attempt (§4.7).
It never propagates: a would-be-thrown condition becomes `ok := false` with
a failure status and the accumulated diagnostics; otherwise the report is
`ok := true`, status 200, carrying the result. -/
def evaluateVerboseRun {α : Type} (throwLevel : Nat) (conds : List Condition)
    (v : α) (execId : Nat) : VerboseReport α :=
  match conds.find? (fun c => throwLevel ≤ c.severity) with
  | some c =>
    { ok := false, status := conditionStatus c, result := none
      diagnostics := conds, executionId := execId }
  | none =>
    { ok := true, status := 200, result := some v
      diagnostics := conds, executionId := execId }

/-! ### Repository-access failure taxonomy (modelled from the spec, §4.5, §7) -/

/-- The four repository-access failure modes of §7. -/
inductive MappingFailureKind where
  | nameNotFound
  | fetchFailure
  | malformedSource
  | runtimeFailure
deriving DecidableEq, Repr

/-- A mapping-resolution error: its stable code plus the name of the
offending mapping. -/
structure MappingError where
  code : String
  mappingName : String
deriving DecidableEq, Repr

/-- Modelled from the spec: the distinct stable codes of the four
repository-access failure modes (§6, §7), as exercised by the error-handling
tests: a missing name surfaces the base-language invoke-non-function code
`T1006`, a repository fetch failure `F3006`, a malformed fetched source
`F3002`, and a runtime failure inside the fetched mapping `F3001`. -/
def mappingFailureCode : MappingFailureKind → String
  | .nameNotFound => "T1006"
  | .fetchFailure => "F3006"
  | .malformedSource => "F3002"
  | .runtimeFailure => "F3001"

/-- Builds the error reported for one failure mode, naming the offending
mapping. -/
def mappingError (k : MappingFailureKind) (name : String) : MappingError :=
  { code := mappingFailureCode k, mappingName := name }

/-- The outcome of asking the external mapping repository for a name. -/
inductive FetchOutcome where
  | absent
  | failed
  | fetched (source : String)

/-- Modelled from the spec: invoking a repository mapping by name (§4.5).
The name may be absent from the repository, the fetch may fail, the fetched
source may be malformed, or the evaluation of the mapping itself may fail at
runtime; each stage surfaces its own error kind naming the mapping. -/
def invokeRepositoryMapping (fetch : String → FetchOutcome)
    (parses : String → Bool) (runsTo : String → Option JVal) (name : String) :
    Except MappingError JVal :=
  match fetch name with
  | .absent => .error (mappingError .nameNotFound name)
  | .failed => .error (mappingError .fetchFailure name)
  | .fetched src =>
    if parses src then
      match runsTo src with
      | some v => .ok v
      | none => .error (mappingError .runtimeFailure name)
    else .error (mappingError .malformedSource name)

/-! ### Mapping-call input handling (modelled from the spec, §4.5) -/

/-- Modelled from the spec: input handling of a mapping invocation
`$name(...)` (§4.5).  With no arguments the ambient context value `$`
becomes the input of the mapping; a single argument is the explicit input;
when a
bindings object is supplied as the trailing second argument, the first
argument stays the explicit input and is never substituted by context. -/
def resolveCallArgs (args : List JVal) (context : JVal) : JVal × Option JVal :=
  match args with
  | [] => (context, none)
  | [input] => (input, none)
  | input :: bindings :: _ => (input, some bindings)

/-- Modelled from the spec: invoking a mapping body with the input and
bindings determined by `resolveCallArgs`. -/
def invokeMapping (body : JVal → Option JVal → JVal) (args : List JVal)
    (context : JVal) : JVal :=
  let (input, bindings) := resolveCallArgs args context
  body input bindings

/-- The greeting mapping of the example in the spec (the source text is a
concatenation of a hello prefix with the context value): string
concatenation with the input. -/
def greetingMapping : JVal → JVal
  | .str s => .str ("Hello, " ++ s)
  | v => v

/-! ### Recover-mode compilation (modelled from the spec, §7) -/

/-- A structured compile-time error: stable code plus the `type` marker. -/
structure CompileError where
  code : String
  errType : String
deriving DecidableEq, Repr

/-- The F1000 error surfaced when FLASH content is compiled without a
navigator, marked `type: error` as the recovery tests expect. -/
def f1000Error : CompileError :=
  { code := "F1000", errType := "error" }

/-- The outcome of the external base-language parse of one source text, as
consumed by the compile entry point: whether FLASH content is present and
the structured parse errors collected in recover mode. -/
structure ParseOutcome where
  containsFlash : Bool
  parseErrors : List CompileError
deriving DecidableEq, Repr

/-- A compiled handle as returned by the compile entry point; `errors` is
what the errors() accessor of the handle exposes. -/
structure CompiledHandle where
  errors : List CompileError
deriving DecidableEq, Repr

/-- Modelled from the spec: the compile entry point of `src/fumifier.js`
(not among the provided sources) restricted to what §7 specifies.  In
recover mode compilation never throws: all structured failures, including
the F1000 missing-navigator error for FLASH content, are collected into the
error list of the handle.  Outside recover mode the first parse error is
thrown,
and FLASH content without a navigator throws F1000. -/
def compileExpression (parsed : ParseOutcome) (recover : Bool)
    (hasNavigator : Bool) : Except CompileError CompiledHandle :=
  let flashErrors :=
    if parsed.containsFlash && !hasNavigator then [f1000Error] else []
  if recover then .ok { errors := parsed.parseErrors ++ flashErrors }
  else
    match parsed.parseErrors with
    | e :: _ => .error e
    | [] =>
      if parsed.containsFlash && !hasNavigator then .error f1000Error
      else .ok { errors := [] }

/-- The inductive invariant of the coordinator when every event concerns the
single identity `i` and `arrived` lists the request ids seen so far: the
cache holds at most the one shared entry, at most one inflight record
exists, cache entry and inflight record never coexist, exactly one parse has
started iff any compilation activity happened, every delivered result is the
shared compiled value, results only exist once the cache is populated, and
every arrived request is either already served or waiting on the one
record. -/
def CoordInv (parse : String → Nat) (i : String) (arrived : List Nat)
    (s : CoordState) : Prop :=
  (s.cache = [] ∨ s.cache = [(i, parse i)])
  ∧ (s.inflight = [] ∨ ∃ ws, s.inflight = [(i, ws)])
  ∧ (s.cache = [] ∨ s.inflight = [])
  ∧ (s.parseCount = if s.cache = [] ∧ s.inflight = [] then 0 else 1)
  ∧ (∀ p ∈ s.results, p.2 = parse i)
  ∧ (s.results = [] ∨ s.cache ≠ [])
  ∧ (∀ r ∈ arrived,
      (r, parse i) ∈ s.results ∨ ∃ ws, s.inflight = [(i, ws)] ∧ r ∈ ws)

end Fumifier

namespace Fumifier

/-! ### Theorems -/

/-- C1: the identity builder is sensitive to the recover flag and to the
schema context, deterministic for identical arguments, and always carries a
`recover` field that defaults to `false` when the flag argument is omitted
(`none`, the model of `undefined`). -/
theorem createExpressionIdentity_sensitivity :
    (∀ (s : String) (ctx : Option (List String)),
      createExpressionIdentity s (some true) ctx
        ≠ createExpressionIdentity s (some false) ctx)
    ∧ (∀ (s : String) (r : Option Bool) (ctx1 ctx2 : Option (List String)),
        ctx1 ≠ ctx2 →
        createExpressionIdentity s r ctx1 ≠ createExpressionIdentity s r ctx2)
    ∧ (∀ (s : String) (r : Option Bool) (ctx : Option (List String)),
        createExpressionIdentity s r ctx = createExpressionIdentity s r ctx)
    ∧ (∀ (s : String) (ctx : Option (List String)),
        (createExpressionIdentity s none ctx).recover = false)
    ∧ (∀ (s : String) (r : Option Bool) (ctx : Option (List String)),
        (createExpressionIdentity s r ctx).recover = r.getD false) := by
  refine ⟨?_, ?_, ?_, ?_, ?_⟩
  · intro s ctx h
    simp [createExpressionIdentity] at h
  · intro s r ctx1 ctx2 hne h
    simp [createExpressionIdentity] at h
    exact hne h
  · intro s r ctx
    rfl
  · intro s ctx
    rfl
  · intro s r ctx
    rfl

/-- Witness for C1 at concrete inputs. -/
theorem createExpressionIdentity_sensitivity_witness :
    createExpressionIdentity "a" (some true) none
      ≠ createExpressionIdentity "a" (some false) none
    ∧ createExpressionIdentity "a" (some false) (some ["p1"])
      ≠ createExpressionIdentity "a" (some false) (some ["p2"])
    ∧ (createExpressionIdentity "a" none none).recover = false :=
  ⟨createExpressionIdentity_sensitivity.1 "a" none,
   createExpressionIdentity_sensitivity.2.1 "a" (some false)
     (some ["p1"]) (some ["p2"]) (by decide),
   createExpressionIdentity_sensitivity.2.2.2.1 "a" none⟩

/-- C3: compiling through a cache whose `get` and `set` always throw
succeeds and produces exactly the directly parsed (errors-normalized) AST,
which is also what compilation against the default working cache produces;
since `evaluate` is a function of the compiled AST, evaluation results
coincide as well. -/
theorem faulty_cache_transparent :
    ∀ (parse : String → Option Bool → Ast) (expr : String) (recover : Option Bool),
      (browserFumifierCompile parse faultyAstCache () expr recover).1
        = ensureErrors (parse expr recover)
      ∧ ∀ (maxE : Nat),
        (browserFumifierCompile parse browserCacheAstModel
            (BrowserCache.fresh Ast maxE) expr recover).1
          = ensureErrors (parse expr recover) := by
  intro parse expr recover
  exact ⟨rfl, fun maxE => rfl⟩

/-- C5: dynamic-name resolution follows the four-layer precedence, each
layer fully shadowing all lower layers: a local variable wins over
everything, a call-site binding over repository mappings and built-ins, a
repository mapping over built-ins, and built-ins are reached only when all
higher layers miss. -/
theorem resolveName_precedence :
    (∀ (α : Type) (lv cb rm bi : String → Option α) (name : String) (f : α),
      lv name = some f → resolveName lv cb rm bi name = some f)
    ∧ (∀ (α : Type) (lv cb rm bi : String → Option α) (name : String) (f : α),
        lv name = none → cb name = some f →
        resolveName lv cb rm bi name = some f)
    ∧ (∀ (α : Type) (lv cb rm bi : String → Option α) (name : String) (f : α),
        lv name = none → cb name = none → rm name = some f →
        resolveName lv cb rm bi name = some f)
    ∧ (∀ (α : Type) (lv cb rm bi : String → Option α) (name : String),
        lv name = none → cb name = none → rm name = none →
        resolveName lv cb rm bi name = bi name) := by
  refine ⟨?_, ?_, ?_, ?_⟩
  · intro α lv cb rm bi name f h
    simp [resolveName, h]
  · intro α lv cb rm bi name f h1 h2
    simp [resolveName, h1, h2]
  · intro α lv cb rm bi name f h1 h2 h3
    simp [resolveName, h1, h2, h3]
  · intro α lv cb rm bi name h1 h2 h3
    simp [resolveName, h1, h2, h3]

/-- Witness for C5: with a local variable, call-site binding, repository
mapping and built-in all defining `x`, resolution picks the local variable;
removing layers one by one reaches each next layer. -/
theorem resolveName_precedence_witness :
    resolveName (fun _ => some 1) (fun _ => some 2) (fun _ => some 3)
        (fun _ => some 4) "x" = some 1
    ∧ resolveName (fun _ => none) (fun _ => some 2) (fun _ => some 3)
        (fun _ => some 4) "x" = some 2
    ∧ resolveName (fun _ => none) (fun _ => none) (fun _ => some 3)
        (fun _ => some 4) "x" = some 3
    ∧ resolveName (fun _ => none) (fun _ => none) (fun _ => none)
        (fun _ => some 4) "x" = some 4 :=
  ⟨resolveName_precedence.1 Nat _ _ _ _ "x" 1 rfl,
   resolveName_precedence.2.1 Nat _ _ _ _ "x" 2 rfl rfl,
   resolveName_precedence.2.2.1 Nat _ _ _ _ "x" 3 rfl rfl rfl,
   resolveName_precedence.2.2.2 Nat _ _ _ _ "x" rfl rfl rfl⟩

/-- C8: a mapping invocation with no arguments takes the ambient context
value as input; when a bindings object is supplied as the trailing argument,
the first argument is the explicit input and is never substituted by the
context value.  The greeting example of the spec evaluates accordingly both
with an explicit input and with context substitution. -/
theorem mapping_input_handling :
    (∀ context : JVal, resolveCallArgs [] context = (context, none))
    ∧ (∀ (a b : JVal) (rest : List JVal) (context : JVal),
        (resolveCallArgs (a :: b :: rest) context).1 = a)
    ∧ invokeMapping (fun input _ => greetingMapping input) []
        (.str "World") = .str "Hello, World"
    ∧ invokeMapping (fun input _ => greetingMapping input) [.str "World"]
        (.obj []) = .str "Hello, World" := by
  refine ⟨fun _ => rfl, fun _ _ _ _ => rfl, rfl, rfl⟩

/-- C9: compilation with `recover = true` never throws and returns a handle
listing every structured failure, including F1000 for FLASH content without
a navigator; compiling FLASH content (with no parse errors) without a
navigator and `recover = false` instead throws F1000. -/
theorem recover_mode_totality :
    (∀ (parsed : ParseOutcome) (hasNav : Bool),
      compileExpression parsed true hasNav
        = .ok { errors := parsed.parseErrors
            ++ (if parsed.containsFlash && !hasNav then [f1000Error] else []) })
    ∧ (∀ parsed : ParseOutcome, parsed.containsFlash = true →
        ∃ h, compileExpression parsed true false = .ok h
          ∧ f1000Error ∈ h.errors)
    ∧ (∀ parsed : ParseOutcome, parsed.containsFlash = true →
        parsed.parseErrors = [] →
        compileExpression parsed false false = .error f1000Error) := by
  refine ⟨?_, ?_, ?_⟩
  · intro parsed hasNav
    rfl
  · intro parsed hflash
    refine ⟨_, rfl, ?_⟩
    simp [hflash]
  · intro parsed hflash herrs
    simp [compileExpression, hflash, herrs]

/-- Witness for C9 at the `InstanceOf: Basic` scenario: FLASH content, no
parse errors, no navigator. -/
theorem recover_mode_totality_witness :
    compileExpression ⟨true, []⟩ true false = .ok { errors := [f1000Error] }
    ∧ (∃ h, compileExpression ⟨true, []⟩ true false = .ok h
        ∧ f1000Error ∈ h.errors)
    ∧ compileExpression ⟨true, []⟩ false false = .error f1000Error :=
  ⟨recover_mode_totality.1 ⟨true, []⟩ false,
   recover_mode_totality.2.1 ⟨true, []⟩ rfl,
   recover_mode_totality.2.2 ⟨true, []⟩ rfl rfl⟩

/-- C6: `evaluateVerbose` never raises where `evaluate` would: a propagated
condition becomes a report with `ok = false`, a non-200 status and non-empty
diagnostics; a successful evaluation with no failing diagnostics yields
`ok = true`, status 200 and the result. -/
theorem evaluateVerbose_totality :
    ∀ (α : Type) (throwLevel : Nat) (conds : List Condition) (v : α)
      (execId : Nat),
      (∀ c : Condition, evaluateRun throwLevel conds v = .error c →
        (evaluateVerboseRun throwLevel conds v execId).ok = false
        ∧ (evaluateVerboseRun throwLevel conds v execId).status ≠ 200
        ∧ (evaluateVerboseRun throwLevel conds v execId).diagnostics ≠ [])
      ∧ (evaluateRun throwLevel conds v = .ok v →
        evaluateVerboseRun throwLevel conds v execId
          = { ok := true, status := 200, result := some v,
              diagnostics := conds, executionId := execId }) := by
  intro α throwLevel conds v execId
  constructor
  · intro c herr
    cases hf : conds.find? (fun d => throwLevel ≤ d.severity) with
    | none => simp [evaluateRun, hf] at herr
    | some c0 =>
      have hcne : conds ≠ [] := by
        intro hnil
        subst hnil
        simp at hf
      refine ⟨?_, ?_, ?_⟩
      · simp [evaluateVerboseRun, hf]
      · simp only [evaluateVerboseRun, hf]
        unfold conditionStatus
        split <;> decide
      · simp only [evaluateVerboseRun, hf]
        exact hcne
  · intro hok
    cases hf : conds.find? (fun d => throwLevel ≤ d.severity) with
    | some c0 => simp [evaluateRun, hf] at hok
    | none => simp [evaluateVerboseRun, hf]

/-- Witness for C6: a throwing attempt (one severity-5 condition above
threshold 3) reports failure; an attempt with no conditions reports
success. -/
theorem evaluateVerbose_totality_witness :
    (evaluateVerboseRun 3 [⟨"E1", 5⟩] (0 : Nat) 1).ok = false
    ∧ (evaluateVerboseRun 3 [⟨"E1", 5⟩] (0 : Nat) 1).status ≠ 200
    ∧ (evaluateVerboseRun 3 [⟨"E1", 5⟩] (0 : Nat) 1).diagnostics ≠ []
    ∧ evaluateVerboseRun 3 ([] : List Condition) (0 : Nat) 1
        = { ok := true, status := 200, result := some 0,
            diagnostics := [], executionId := 1 } := by
  have h := evaluateVerbose_totality Nat 3 [⟨"E1", 5⟩] 0 1
  have hfail := h.1 ⟨"E1", 5⟩ rfl
  exact ⟨hfail.1, hfail.2.1, hfail.2.2,
    (evaluateVerbose_totality Nat 3 [] 0 1).2 rfl⟩

/-- C7: the four repository-access failure modes carry pairwise distinct
error codes, every error produced by invoking a repository mapping names the
offending mapping, and each stage of the resolution pipeline surfaces
exactly its own error kind. -/
theorem mapping_failure_taxonomy :
    (∀ k1 k2 : MappingFailureKind, k1 ≠ k2 →
      mappingFailureCode k1 ≠ mappingFailureCode k2)
    ∧ (∀ (fetch : String → FetchOutcome) (parses : String → Bool)
        (runsTo : String → Option JVal) (name : String) (e : MappingError),
        invokeRepositoryMapping fetch parses runsTo name = .error e →
        e.mappingName = name)
    ∧ (∀ (fetch : String → FetchOutcome) (parses : String → Bool)
        (runsTo : String → Option JVal) (name : String),
        fetch name = .absent →
        invokeRepositoryMapping fetch parses runsTo name
          = .error (mappingError .nameNotFound name))
    ∧ (∀ (fetch : String → FetchOutcome) (parses : String → Bool)
        (runsTo : String → Option JVal) (name : String),
        fetch name = .failed →
        invokeRepositoryMapping fetch parses runsTo name
          = .error (mappingError .fetchFailure name))
    ∧ (∀ (fetch : String → FetchOutcome) (parses : String → Bool)
        (runsTo : String → Option JVal) (name src : String),
        fetch name = .fetched src → parses src = false →
        invokeRepositoryMapping fetch parses runsTo name
          = .error (mappingError .malformedSource name))
    ∧ (∀ (fetch : String → FetchOutcome) (parses : String → Bool)
        (runsTo : String → Option JVal) (name src : String),
        fetch name = .fetched src → parses src = true → runsTo src = none →
        invokeRepositoryMapping fetch parses runsTo name
          = .error (mappingError .runtimeFailure name)) := by
  refine ⟨?_, ?_, ?_, ?_, ?_, ?_⟩
  · intro k1 k2 hne
    cases k1 <;> cases k2 <;> first
      | exact absurd rfl hne
      | decide
  · intro fetch parses runsTo name e h
    unfold invokeRepositoryMapping at h
    rcases hf : fetch name with _ | _ | src <;> rw [hf] at h
    · cases h
      rfl
    · cases h
      rfl
    · by_cases hb : parses src = true
      · cases hr : runsTo src with
        | none =>
          simp only [hb, if_true, hr] at h
          cases h
          rfl
        | some v =>
          simp only [hb, if_true, hr] at h
          exact Except.noConfusion h
      · have hb' : parses src = false := by
          simpa using hb
        simp only [hb', Bool.false_eq_true, if_false] at h
        cases h
        rfl
  · intro fetch parses runsTo name h
    simp [invokeRepositoryMapping, h]
  · intro fetch parses runsTo name h
    simp [invokeRepositoryMapping, h]
  · intro fetch parses runsTo name src h hp
    simp [invokeRepositoryMapping, h, hp]
  · intro fetch parses runsTo name src h hp hr
    simp [invokeRepositoryMapping, h, hp, hr]

/-- Witness for C7: each failure mode exercised concretely — a missing name,
a failing fetch, a malformed fetched source, and a mapping whose own
evaluation fails. -/
theorem mapping_failure_taxonomy_witness :
    mappingFailureCode .nameNotFound ≠ mappingFailureCode .malformedSource
    ∧ invokeRepositoryMapping (fun _ => .absent) (fun _ => true)
        (fun _ => none) "missing"
        = .error (mappingError .nameNotFound "missing")
    ∧ invokeRepositoryMapping (fun _ => .failed) (fun _ => true)
        (fun _ => none) "m"
        = .error (mappingError .fetchFailure "m")
    ∧ invokeRepositoryMapping (fun _ => .fetched "$ + + $") (fun _ => false)
        (fun _ => none) "m"
        = .error (mappingError .malformedSource "m")
    ∧ invokeRepositoryMapping (fun _ => .fetched "$undefinedFunction()")
        (fun _ => true) (fun _ => none) "m"
        = .error (mappingError .runtimeFailure "m") :=
  ⟨mapping_failure_taxonomy.1 .nameNotFound .malformedSource (by decide),
   mapping_failure_taxonomy.2.2.1 _ _ _ "missing" rfl,
   mapping_failure_taxonomy.2.2.2.1 _ _ _ "m" rfl,
   mapping_failure_taxonomy.2.2.2.2.1 _ _ _ "m" "$ + + $" rfl rfl,
   mapping_failure_taxonomy.2.2.2.2.2 _ _ _ "m" "$undefinedFunction()" rfl rfl rfl⟩

/-- Helper for C10: `translateCode` on a mapped result with an array of
targets reduces to collapsing the truthy-filtered `t && t.code`
projections. -/
theorem translateCode_mapped (result : JVal) (ts : List JVal)
    (ht : result.truthy = true)
    (hs : (result.getField "status").strictEqStr "mapped" = true)
    (htg : result.getField "targets" = .arr ts) :
    translateCodeFromResult result
      = some (maybeCollapseArray
          (.arr ((ts.map (fun t => t.jsAnd (t.getField "code"))).filter
            JVal.truthy))) := by
  unfold translateCodeFromResult
  rw [ht, hs, htg]
  simp [JVal.jsOr, JVal.truthy, JVal.jsArrayMap, JVal.jsFilterTruthy]

/-- Helper for C10: `translateCoding` on a mapped result with an array of
targets reduces to collapsing the truthy-filtered `toCodingLike`
projections. -/
theorem translateCoding_mapped (result : JVal) (ts : List JVal)
    (ht : result.truthy = true)
    (hs : (result.getField "status").strictEqStr "mapped" = true)
    (htg : result.getField "targets" = .arr ts) :
    translateCodingFromResult result
      = some (maybeCollapseArray (.arr ((ts.map toCodingLike).filter
          JVal.truthy))) := by
  unfold translateCodingFromResult
  rw [ht, hs, htg]
  simp [JVal.jsOr, JVal.truthy, JVal.jsArrayMap, JVal.jsFilterTruthy]

/-- C10: the translate wrappers return `undefined` when the runtime result
is falsy or its status is not `mapped`; otherwise the targets array is
projected (to `t && t.code` for `translateCode`, to `toCodingLike` for
`translateCoding`), falsy/invalid projections are filtered out, and the
remainder collapses: empty to `undefined`, a single value to that value, two
or more to an array.  Falsy/absent `targets` behave as the empty array. -/
theorem translate_wrappers_behavior :
    (∀ result : JVal,
      result.truthy = false
        ∨ (result.getField "status").strictEqStr "mapped" = false →
      translateCodeFromResult result = some .undefined
      ∧ translateCodingFromResult result = some .undefined)
    ∧ (∀ (result : JVal) (ts : List JVal),
        result.truthy = true →
        (result.getField "status").strictEqStr "mapped" = true →
        result.getField "targets" = .arr ts →
        ((ts.map (fun t => t.jsAnd (t.getField "code"))).filter JVal.truthy
            = [] →
          translateCodeFromResult result = some .undefined)
        ∧ (∀ c, (ts.map (fun t => t.jsAnd (t.getField "code"))).filter
              JVal.truthy = [c] →
            translateCodeFromResult result = some c)
        ∧ (∀ c1 c2 cs, (ts.map (fun t => t.jsAnd (t.getField "code"))).filter
              JVal.truthy = c1 :: c2 :: cs →
            translateCodeFromResult result = some (.arr (c1 :: c2 :: cs)))
        ∧ ((ts.map toCodingLike).filter JVal.truthy = [] →
            translateCodingFromResult result = some .undefined)
        ∧ (∀ c, (ts.map toCodingLike).filter JVal.truthy = [c] →
            translateCodingFromResult result = some c)
        ∧ (∀ c1 c2 cs, (ts.map toCodingLike).filter JVal.truthy
              = c1 :: c2 :: cs →
            translateCodingFromResult result = some (.arr (c1 :: c2 :: cs))))
    ∧ (∀ result : JVal,
        result.truthy = true →
        (result.getField "status").strictEqStr "mapped" = true →
        (result.getField "targets").truthy = false →
        translateCodeFromResult result = some .undefined
        ∧ translateCodingFromResult result = some .undefined) := by
  refine ⟨?_, ?_, ?_⟩
  · intro result h
    rcases h with h | h <;>
      exact ⟨by simp [translateCodeFromResult, h],
        by simp [translateCodingFromResult, h]⟩
  · intro result ts ht hs htg
    refine ⟨?_, ?_, ?_, ?_, ?_, ?_⟩
    · intro hfil
      rw [translateCode_mapped result ts ht hs htg, hfil]
      rfl
    · intro c hfil
      rw [translateCode_mapped result ts ht hs htg, hfil]
      rfl
    · intro c1 c2 cs hfil
      rw [translateCode_mapped result ts ht hs htg, hfil]
      rfl
    · intro hfil
      rw [translateCoding_mapped result ts ht hs htg, hfil]
      rfl
    · intro c hfil
      rw [translateCoding_mapped result ts ht hs htg, hfil]
      rfl
    · intro c1 c2 cs hfil
      rw [translateCoding_mapped result ts ht hs htg, hfil]
      rfl
  · intro result ht hs htf
    constructor
    · unfold translateCodeFromResult
      rw [ht, hs]
      simp [JVal.jsOr, htf, JVal.jsArrayMap, JVal.jsFilterTruthy]
      rfl
    · unfold translateCodingFromResult
      rw [ht, hs]
      simp [JVal.jsOr, htf, JVal.jsArrayMap, JVal.jsFilterTruthy]
      rfl

/-- Witness for C10: a mapped result with one full coding target, one
codeless target and one null target yields two codes (an array) but a
single collapsed coding; a falsy result, an unmapped status and falsy
targets all yield `undefined`. -/
theorem translate_wrappers_behavior_witness :
    translateCodeFromResult
        (.obj [("status", .str "mapped"),
               ("targets", .arr [.obj [("system", .str "s"), ("code", .str "a")],
                                 .obj [("code", .str "b")],
                                 .null])])
      = some (.arr [.str "a", .str "b"])
    ∧ translateCodingFromResult
        (.obj [("status", .str "mapped"),
               ("targets", .arr [.obj [("system", .str "s"), ("code", .str "a")],
                                 .obj [("code", .str "b")],
                                 .null])])
      = some (.obj [("system", .str "s"), ("code", .str "a")])
    ∧ translateCodeFromResult .null = some .undefined
    ∧ translateCodeFromResult (.obj [("status", .str "unmapped")])
      = some .undefined
    ∧ translateCodingFromResult
        (.obj [("status", .str "mapped"), ("targets", .null)])
      = some .undefined := by
  have hm := translate_wrappers_behavior.2.1
    (.obj [("status", .str "mapped"),
           ("targets", .arr [.obj [("system", .str "s"), ("code", .str "a")],
                             .obj [("code", .str "b")],
                             .null])])
    [.obj [("system", .str "s"), ("code", .str "a")],
     .obj [("code", .str "b")], .null] rfl (by rfl) (by rfl)
  refine ⟨?_, ?_, ?_, ?_, ?_⟩
  · exact hm.2.2.1 (.str "a") (.str "b") [] (by rfl)
  · exact hm.2.2.2.2.1 (.obj [("system", .str "s"), ("code", .str "a")])
      (by rfl)
  · exact (translate_wrappers_behavior.1 .null (Or.inl rfl)).1
  · exact (translate_wrappers_behavior.1
      (.obj [("status", .str "unmapped")]) (Or.inr (by rfl))).1
  · exact (translate_wrappers_behavior.2.2
      (.obj [("status", .str "mapped"), ("targets", .null)])
      rfl (by rfl) (by rfl)).2

/-- A list with an element failing the predicate strictly shrinks under
`filter`. -/
theorem length_filter_lt {α : Type} (p : α → Bool) :
    ∀ l : List α, (∃ a ∈ l, p a = false) → (l.filter p).length < l.length := by
  intro l
  induction l with
  | nil =>
    rintro ⟨a, ha, _⟩
    cases ha
  | cons x xs ih =>
    rintro ⟨a, ha, hpa⟩
    cases hx : p x with
    | true =>
      rcases List.mem_cons.mp ha with rfl | ha
      · rw [hpa] at hx
        cases hx
      · rw [List.filter_cons_of_pos hx]
        simpa using ih ⟨a, ha, hpa⟩
    | false =>
      rw [List.filter_cons_of_neg (by simp [hx])]
      exact Nat.lt_succ_of_le (List.length_filter_le _ _)

/-- A found key makes the key-erasing filter strictly shrink the entry
list. -/
theorem length_erase_lt_of_find {V : Type} (l : List (String × V)) (k : String)
    (pr : String × V) (hf : l.find? (fun q => q.1 == k) = some pr) :
    (l.filter (fun q => q.1 ≠ k)).length < l.length := by
  apply length_filter_lt
  refine ⟨pr, List.mem_of_find?_eq_some hf, ?_⟩
  have hpk := List.find?_some (p := fun q : String × V => q.1 == k) hf
  have heq : pr.1 = k := eq_of_beq hpk
  simp [heq]

/-- The lookup operation preserves the configured capacity. -/
theorem getKey_maxEntries {V : Type} (c : BrowserCache V) (k : String) :
    ((c.getKey k).2).maxEntries = c.maxEntries := by
  unfold BrowserCache.getKey
  cases c.entries.find? (fun p => p.1 == k) <;> rfl

/-- The insert operation preserves the configured capacity. -/
theorem setKey_maxEntries {V : Type} (c : BrowserCache V) (k : String) (v : V) :
    ((c.setKey k v)).maxEntries = c.maxEntries :=
  rfl

/-- The lookup operation never grows the entry list. -/
theorem getKey_size_le {V : Type} (c : BrowserCache V) (k : String) :
    ((c.getKey k).2).entries.length ≤ c.entries.length := by
  unfold BrowserCache.getKey
  cases hf : c.entries.find? (fun p => p.1 == k) with
  | none => exact Nat.le_refl _
  | some p =>
    simp only [List.length_append, List.length_singleton]
    have := length_erase_lt_of_find c.entries k p hf
    omega

/-- The insert operation keeps the entry count within a capacity of at
least one. -/
theorem setKey_size_le {V : Type} (c : BrowserCache V) (k : String) (v : V)
    (hmax : 1 ≤ c.maxEntries) (hle : c.entries.length ≤ c.maxEntries) :
    (c.setKey k v).entries.length ≤ c.maxEntries := by
  unfold BrowserCache.setKey
  cases hf : c.entries.find? (fun p => p.1 == k) with
  | some pr =>
    have hlt := length_erase_lt_of_find c.entries k pr hf
    simp only [hf, Option.isSome_some]
    simp [List.length_append]
    simp only [ne_eq, decide_not] at hlt
    omega
  | none =>
    simp only [hf, Option.isSome_none]
    simp only [Bool.false_eq_true, and_false, and_true, if_false, ite_false,
      List.length_append, List.length_singleton]
    split
    · simp only [List.length_drop]
      omega
    · rename_i hcap
      omega

/-- Running any operation sequence on a cache within capacity keeps it
within capacity, for capacities of at least one. -/
theorem runOps_size_le {V : Type} (ops : List (CacheOp V)) :
    ∀ c : BrowserCache V, 1 ≤ c.maxEntries →
      c.entries.length ≤ c.maxEntries →
      (c.runOps ops).entries.length ≤ c.maxEntries := by
  induction ops with
  | nil =>
    intro c _ h2
    exact h2
  | cons op rest ih =>
    intro c h1 h2
    cases op with
    | get k =>
      have h := ih ((c.getKey k).2)
        (by rw [getKey_maxEntries]; exact h1)
        (by rw [getKey_maxEntries]
            exact Nat.le_trans (getKey_size_le c k) h2)
      rw [getKey_maxEntries] at h
      exact h
    | set k v =>
      have h := ih (c.setKey k v)
        (by rw [setKey_maxEntries]; exact h1)
        (by rw [setKey_maxEntries]
            exact setKey_size_le c k v h1 h2)
      rw [setKey_maxEntries] at h
      exact h

/-- C4 (amended: for a capacity of at least one): after any sequence of get
and set operations from a fresh cache the entry count never exceeds
`maxEntries`; setting a new key at capacity evicts exactly the head — the
least-recently-used entry, since a get hit re-inserts its entry at the
most-recently-used tail position, which the third conjunct states. -/
theorem browserCache_bound_and_lru :
    (∀ (V : Type) (maxE : Nat), 1 ≤ maxE → ∀ ops : List (CacheOp V),
      ((BrowserCache.fresh V maxE).runOps ops).size ≤ maxE)
    ∧ (∀ (V : Type) (c : BrowserCache V) (k : String) (v : V),
        1 ≤ c.maxEntries → c.entries.length = c.maxEntries →
        c.entries.find? (fun p => p.1 == k) = none →
        (c.setKey k v).entries = c.entries.drop 1 ++ [(k, v)])
    ∧ (∀ (V : Type) (c : BrowserCache V) (k : String) (p : String × V),
        c.entries.find? (fun q => q.1 == k) = some p →
        ((c.getKey k).2).entries
          = c.entries.filter (fun q => q.1 ≠ k) ++ [(k, p.2)]) := by
  refine ⟨?_, ?_, ?_⟩
  · intro V maxE h1 ops
    exact runOps_size_le ops (BrowserCache.fresh V maxE) h1 (Nat.zero_le _)
  · intro V c k v hmax hcap hnew
    unfold BrowserCache.setKey
    simp only [hnew, Option.isSome_none]
    simp [Nat.le_of_eq hcap.symm]
  · intro V c k p hf
    unfold BrowserCache.getKey
    rw [hf]

/-- C4 counterexample to the unamended claim: a cache constructed with
capacity 0 holds one entry after a single set, exceeding its capacity. -/
theorem browserCache_zero_capacity_overflow :
    ¬ ((BrowserCache.fresh Nat 0).runOps [CacheOp.set "k" 7]).size ≤ 0 := by
  decide

/-- Witness for C4 at concrete inputs: a capacity-1 cache stays at one entry
over two inserts; a full capacity-2 cache evicts its oldest entry for a new
key; a get hit moves the hit entry to the most-recently-used end. -/
theorem browserCache_bound_and_lru_witness :
    ((BrowserCache.fresh Nat 1).runOps
        [CacheOp.set "a" 1, CacheOp.set "b" 2]).size ≤ 1
    ∧ ((⟨2, [("a", 1), ("b", 2)]⟩ : BrowserCache Nat).setKey "c" 3).entries
        = ([("a", 1), ("b", 2)] : List (String × Nat)).drop 1 ++ [("c", 3)]
    ∧ (((⟨2, [("a", 1), ("b", 2)]⟩ : BrowserCache Nat).getKey "a").2).entries
        = ([("a", 1), ("b", 2)] : List (String × Nat)).filter
            (fun q => q.1 ≠ "a") ++ [("a", 1)] :=
  ⟨browserCache_bound_and_lru.1 Nat 1 (by decide)
      [CacheOp.set "a" 1, CacheOp.set "b" 2],
   browserCache_bound_and_lru.2.1 Nat ⟨2, [("a", 1), ("b", 2)]⟩ "c" 3
      (by decide) (by decide) (by decide),
   browserCache_bound_and_lru.2.2 Nat ⟨2, [("a", 1), ("b", 2)]⟩ "a" ("a", 1)
      (by decide)⟩

/-- One coordinator step on an event for identity `i` preserves the
coordinator invariant, extending the arrived-request list with the arrival
of the event (if any). -/
theorem coordStep_inv (parse : String → Nat) (i : String) (arrived : List Nat)
    (s : CoordState) (e : CoordEvent) (he : e.ident = i)
    (hinv : CoordInv parse i arrived s) :
    CoordInv parse i (arrived ++ arrivalRids [e] i) (coordStep parse s e) := by
  obtain ⟨hc, hi, hci, hpc, hres, hrc, harr⟩ := hinv
  cases e with
  | arrive rid j =>
    simp only [CoordEvent.ident] at he
    subst j
    have harr1 : arrivalRids [CoordEvent.arrive rid i] i = [rid] := by
      simp [arrivalRids]
    rw [harr1]
    rcases hc with hcnil | hcone
    · have hcl : alookup s.cache i = none := by
        rw [hcnil]
        rfl
      rcases hi with hinil | ⟨ws, hiws⟩
      · have hil : alookup s.inflight i = none := by
          rw [hinil]
          rfl
        simp only [coordStep, hcl, hil]
        refine ⟨Or.inl hcnil, Or.inr ⟨[rid], by rw [hinil]⟩, Or.inl hcnil,
          ?_, hres, ?_, ?_⟩
        · have hpc0 : s.parseCount = 0 := by
            rw [hpc, if_pos ⟨hcnil, hinil⟩]
          simp [hpc0, hinil]
        · rcases hrc with hr0 | hcn
          · exact Or.inl hr0
          · exact absurd hcnil hcn
        · intro r hr
          rcases List.mem_append.mp hr with hr | hr
          · rcases harr r hr with hres1 | ⟨ws, hws, _⟩
            · exact Or.inl hres1
            · rw [hinil] at hws
              cases hws
          · have : r = rid := by simpa using hr
            subst this
            exact Or.inr ⟨[r], by rw [hinil], by simp⟩
      · have hil : alookup s.inflight i = some ws := by
          rw [hiws]
          simp [alookup]
        simp only [coordStep, hcl, hil]
        have haddw : addWaiter s.inflight i rid = [(i, rid :: ws)] := by
          rw [hiws]
          simp [addWaiter]
        refine ⟨Or.inl hcnil, Or.inr ⟨rid :: ws, by rw [haddw]⟩,
          Or.inl hcnil, ?_, hres, hrc, ?_⟩
        · have : s.parseCount = 1 := by
            rw [hpc, if_neg]
            rintro ⟨-, hinf⟩
            rw [hiws] at hinf
            cases hinf
          simp [this, haddw]
        · intro r hr
          rcases List.mem_append.mp hr with hr | hr
          · rcases harr r hr with hres1 | ⟨ws2, hws2, hmem2⟩
            · exact Or.inl hres1
            · rw [hiws] at hws2
              cases hws2
              exact Or.inr ⟨rid :: ws, by rw [haddw], by simp [hmem2]⟩
          · have : r = rid := by simpa using hr
            subst this
            exact Or.inr ⟨r :: ws, by rw [haddw], by simp⟩
    · have hcl : alookup s.cache i = some (parse i) := by
        rw [hcone]
        simp [alookup]
      simp only [coordStep, hcl]
      have hinfl : s.inflight = [] := by
        rcases hci with hcn | hin
        · rw [hcone] at hcn
          cases hcn
        · exact hin
      refine ⟨Or.inr hcone, hi, Or.inr hinfl, ?_, ?_, ?_, ?_⟩
      · have : s.parseCount = 1 := by
          rw [hpc, if_neg]
          rintro ⟨hcn, -⟩
          rw [hcone] at hcn
          cases hcn
        rw [this, if_neg]
        rintro ⟨hcn, -⟩
        rw [hcone] at hcn
        cases hcn
      · intro p hp
        rcases List.mem_cons.mp hp with rfl | hp
        · rfl
        · exact hres p hp
      · refine Or.inr ?_
        rw [hcone]
        simp
      · intro r hr
        rcases List.mem_append.mp hr with hr | hr
        · rcases harr r hr with hres1 | ⟨ws2, hws2, -⟩
          · exact Or.inl (List.mem_cons_of_mem _ hres1)
          · rw [hinfl] at hws2
            cases hws2
        · have : r = rid := by simpa using hr
          subst this
          exact Or.inl (List.mem_cons_self _ _)
  | settle j =>
    simp only [CoordEvent.ident] at he
    subst j
    have harr0 : arrivalRids [CoordEvent.settle i] i = [] := by
      simp [arrivalRids]
    rw [harr0, List.append_nil]
    rcases hi with hinil | ⟨ws, hiws⟩
    · have hil : alookup s.inflight i = none := by
        rw [hinil]
        rfl
      simp only [coordStep, hil]
      exact ⟨hc, Or.inl hinil, hci, hpc, hres, hrc, harr⟩
    · have hil : alookup s.inflight i = some ws := by
        rw [hiws]
        simp [alookup]
      simp only [coordStep, hil]
      have hcnil : s.cache = [] := by
        rcases hci with hcn | hin
        · exact hcn
        · rw [hiws] at hin
          cases hin
      have hremove : removeRecord s.inflight i = [] := by
        rw [hiws]
        simp [removeRecord]
      refine ⟨Or.inr (by rw [hcnil]), Or.inl hremove, Or.inr hremove,
        ?_, ?_, ?_, ?_⟩
      · have : s.parseCount = 1 := by
          rw [hpc, if_neg]
          rintro ⟨-, hin⟩
          rw [hiws] at hin
          cases hin
        rw [this, if_neg]
        rintro ⟨hcn, -⟩
        cases hcn
      · intro p hp
        rcases List.mem_append.mp hp with hp | hp
        · rcases List.mem_map.mp hp with ⟨r, -, rfl⟩
          rfl
        · exact hres p hp
      · exact Or.inr (by simp)
      · intro r hr
        rcases harr r hr with hres1 | ⟨ws2, hws2, hmem2⟩
        · exact Or.inl (List.mem_append_right _ hres1)
        · rw [hiws] at hws2
          injection hws2 with hpair htail
          injection hpair with hfst hws
          subst hws
          refine Or.inl (List.mem_append_left _ ?_)
          exact List.mem_map.mpr ⟨r, hmem2, rfl⟩

/-- Running a trace of events for identity `i` preserves the coordinator
invariant, accumulating the arrivals of the trace. -/
theorem runCoord_inv (parse : String → Nat) (i : String) :
    ∀ (evs : List CoordEvent) (arrived : List Nat) (s : CoordState),
      (∀ e ∈ evs, e.ident = i) → CoordInv parse i arrived s →
      CoordInv parse i (arrived ++ arrivalRids evs i) (runCoord parse s evs) := by
  intro evs
  induction evs with
  | nil =>
    intro arrived s _ hinv
    simpa [arrivalRids, runCoord] using hinv
  | cons e rest ih =>
    intro arrived s hall hinv
    have h1 := coordStep_inv parse i arrived s e (hall e (by simp)) hinv
    have h2 := ih (arrived ++ arrivalRids [e] i) (coordStep parse s e)
      (fun x hx => hall x (by simp [hx])) h1
    have hsplit : arrivalRids (e :: rest) i
        = arrivalRids [e] i ++ arrivalRids rest i := by
      cases e with
      | arrive r j =>
        by_cases hj : j = i <;> simp [arrivalRids, List.filterMap_cons, hj]
      | settle j => simp [arrivalRids, List.filterMap_cons]
    rw [runCoord, hsplit, ← List.append_assoc]
    exact h2

/-- The empty coordinator state satisfies the invariant with no arrivals. -/
theorem coordInit_inv (parse : String → Nat) (i : String) :
    CoordInv parse i [] coordInit := by
  refine ⟨Or.inl rfl, Or.inl rfl, Or.inl rfl, by simp [coordInit], ?_,
    Or.inl rfl, ?_⟩ <;> simp [coordInit]

/-- C2: for any trace of N ≥ 2 concurrent compile requests for the same
identity, once every in-flight compilation has settled exactly one
underlying parse was performed, the cache holds exactly one entry for that
identity, every requester received the one shared compiled value, and the
`activeInflightRequests` statistic is back to zero — independent of the
waiter count. -/
theorem inflight_at_most_one_compile (parse : String → Nat) (i : String)
    (evs : List CoordEvent)
    (hall : ∀ e ∈ evs, e.ident = i)
    (hN : 2 ≤ (arrivalRids evs i).length)
    (hsettled : (runCoord parse coordInit evs).inflight = []) :
    (runCoord parse coordInit evs).parseCount = 1
    ∧ (runCoord parse coordInit evs).cache = [(i, parse i)]
    ∧ (∀ r ∈ arrivalRids evs i,
        (r, parse i) ∈ (runCoord parse coordInit evs).results)
    ∧ activeInflightRequests (runCoord parse coordInit evs) = 0 := by
  have hinv := runCoord_inv parse i evs [] coordInit hall (coordInit_inv parse i)
  rw [List.nil_append] at hinv
  obtain ⟨hc, hi, hci, hpc, hres, hrc, harr⟩ := hinv
  have hdelivered : ∀ r ∈ arrivalRids evs i,
      (r, parse i) ∈ (runCoord parse coordInit evs).results := by
    intro r hr
    rcases harr r hr with hres1 | ⟨ws, hws, -⟩
    · exact hres1
    · rw [hsettled] at hws
      cases hws
  have hex : ∃ r, r ∈ arrivalRids evs i := by
    cases hl : arrivalRids evs i with
    | nil =>
      rw [hl] at hN
      simp at hN
    | cons a l => exact ⟨a, by simp [hl]⟩
  obtain ⟨r0, hr0⟩ := hex
  have hresne : (runCoord parse coordInit evs).results ≠ [] :=
    List.ne_nil_of_mem (hdelivered r0 hr0)
  have hcachene : (runCoord parse coordInit evs).cache ≠ [] := by
    rcases hrc with hr | hcn
    · exact absurd hr hresne
    · exact hcn
  have hcache : (runCoord parse coordInit evs).cache = [(i, parse i)] := by
    rcases hc with hcn | hcone
    · exact absurd hcn hcachene
    · exact hcone
  refine ⟨?_, hcache, hdelivered, ?_⟩
  · rw [hpc, if_neg]
    rintro ⟨hcn, -⟩
    exact hcachene hcn
  · rw [activeInflightRequests, hsettled]
    rfl

/-- Witness for C2: three concurrent requests for identity `e` — two
arrivals share one parse, the compilation settles, a cache entry exists,
both requesters got the shared value, and no inflight record remains. -/
theorem inflight_at_most_one_compile_witness :
    (runCoord (fun _ => 42) coordInit
        [.arrive 1 "e", .arrive 2 "e", .settle "e"]).parseCount = 1
    ∧ (runCoord (fun _ => 42) coordInit
        [.arrive 1 "e", .arrive 2 "e", .settle "e"]).cache = [("e", 42)]
    ∧ (∀ r ∈ arrivalRids [.arrive 1 "e", .arrive 2 "e", .settle "e"] "e",
        (r, 42) ∈ (runCoord (fun _ => 42) coordInit
          [.arrive 1 "e", .arrive 2 "e", .settle "e"]).results)
    ∧ activeInflightRequests (runCoord (fun _ => 42) coordInit
        [.arrive 1 "e", .arrive 2 "e", .settle "e"]) = 0 := by
  have h := inflight_at_most_one_compile (fun _ => 42) "e"
    [.arrive 1 "e", .arrive 2 "e", .settle "e"]
    (by decide) (by decide) (by decide)
  exact ⟨h.1, h.2.1, h.2.2.1, h.2.2.2⟩

end Fumifier
